import Mathlib

/-!
# Verification of the bsp2minimap core (`src/lib.rs`)

A shallow embedding of the library that converts a parsed BSP level into a
2D vector (SVG) minimap: axis projection, texture-based face filtering,
depth-ordered face sorting, per-texture average-color sampling, and the
document composition data (polygons and viewBox).

Modelling conventions:
* `f32` values are modelled as exact rationals (`ℚ`); the two float-specific
  behaviours the code relies on are made explicit through the `F32` type:
  `0.0 / 0.0` is NaN, and `NaN as u32` is `0` (Rust saturating cast).
* Fallible/panicking computations return `Option`: `none` models a Rust
  `panic!` (an `unwrap` of `None`).
* The external parser helpers (`get_face_texture`, `get_face_vertice_indexes`,
  `get_face_vertices` from `bspparser`) are contract-only collaborators: a
  `Face` carries its texture name and its ordered vertex-index list, and
  `get_face_vertices` resolves indices in the level's vertex list.  The
  parser contract guarantees in-range indices, so resolution uses a default
  vertex for the (never exercised) out-of-range case.
* Rust's stable `Vec::sort_by` is modelled by `List.mergeSort`, which is a
  stable sort with the same comparator; a stable ascending sort's output is
  uniquely determined by the comparator and the input order.
* The `HashMap` of per-face minimums is modelled as an association list onto
  which each insertion prepends its entry; lookup takes the first entry from
  the head, which is the last one inserted, matching `HashMap::insert`
  overwrite semantics.
-/

namespace Bsp2Svg

/-- `ProjectionAxis` from `lib.rs`: the axis dropped by the 2D projection. -/
inductive ProjectionAxis where
  | X
  | Y
  | Z
deriving DecidableEq, Repr

/-- A 3D vertex of the parsed level (parser's `Vertex`, `f32` coordinates
modelled as `ℚ`). -/
structure Vertex where
  x : ℚ
  y : ℚ
  z : ℚ
deriving DecidableEq, Repr

/-- A face of the parsed level.  `edge_list_index` is the field the code uses
as the memoization key when sorting; `textureName` is what
`get_face_texture(bsp, face).name.to_string()` returns for this face, and
`vertexIndexes` is what `get_face_vertice_indexes(bsp, face)` returns. -/
structure Face where
  edge_list_index : Nat
  textureName : String
  vertexIndexes : List Nat
deriving DecidableEq, Repr

/-- A texture: its name and the byte buffer of the raster that
`read_texture_image(r, tex, TextureScale::Eighth)` yields for it (interleaved
RGB bytes). -/
structure Texture where
  name : String
  data : List Nat
deriving DecidableEq, Repr

/-- The parsed level (`BspFile`): vertices, faces, textures. -/
structure BspFile where
  vertices : List Vertex
  faces : List Face
  textures : List Texture
deriving DecidableEq, Repr

/-- Default vertex used to resolve an (contractually impossible) out-of-range
vertex index. -/
def defaultVertex : Vertex := ⟨0, 0, 0⟩

/-- `get_face_vertices(bsp, face)` of `bspparser`: the face's ordered vertex
list, resolving each index into the level's vertex sequence. -/
def get_face_vertices (bsp : BspFile) (face : Face) : List Vertex :=
  face.vertexIndexes.map (fun i => bsp.vertices.getD i defaultVertex)

/-- Rust `str::contains`: substring containment, on character lists — the
needle occurs starting at some position of the haystack. -/
def strContains (haystack needle : String) : Bool :=
  (List.range (haystack.toList.length + 1)).any
    (fun i => needle.toList.isPrefixOf (haystack.toList.drop i))

/-- `is_ignored_texture` from `lib.rs`: exact-match names first, then
substring needles. -/
def is_ignored_texture (name : String) : Bool :=
  let ignored_names := ["clip", "hint", "trigger", "163"]
  if ignored_names.any (fun n => n == name) then
    true
  else
    let ignored_needles := ["sky", "light", "tech", "wood"]
    ignored_needles.any (fun needle => strContains name needle)

/-- `filter_faces` from `lib.rs`: keep, in original order, the faces whose
texture name is not ignored. -/
def filter_faces (bsp : BspFile) : List Face :=
  bsp.faces.filter (fun face => !is_ignored_texture face.textureName)

/-- The per-vertex projection performed inside `convert`'s `map` closure. -/
def projectVertex (axis : ProjectionAxis) (v : Vertex) : ℚ × ℚ :=
  match axis with
  | .X => (v.y, v.z)
  | .Y => (v.x, v.z)
  | .Z => (v.x, -v.y)

/-- The `pvertices` computation of `convert`: project every level vertex. -/
def project (vertices : List Vertex) (axis : ProjectionAxis) : List (ℚ × ℚ) :=
  vertices.map (projectVertex axis)

/-- The per-face axis minimum of `filter_and_sort_faces`:
`vertices.iter().map(|v| v.{x,y,z}).reduce(f32::min)`.  `none` models the
empty reduction (whose `unwrap` panics). -/
def faceMin (bsp : BspFile) (axis : ProjectionAxis) (face : Face) : Option ℚ :=
  let vertices := get_face_vertices bsp face
  match axis with
  | .X => (vertices.map (·.x)).min?
  | .Y => (vertices.map (·.y)).min?
  | .Z => (vertices.map (·.z)).min?

/-- One iteration of the `minimums` loop: the `(edge_list_index, min)` entry
a face inserts, `none` when the `unwrap` of its empty reduction panics. -/
def minEntry (bsp : BspFile) (axis : ProjectionAxis) (face : Face) :
    Option (Nat × ℚ) :=
  (faceMin bsp axis face).map (fun m => (face.edge_list_index, m))

/-- The `minimums` map of `filter_and_sort_faces`: one `insert` of
`(face.edge_list_index, min)` per face, in face order; the association list
is reversed so that its head is the last insertion, matching `HashMap`
overwrite semantics under head-first lookup.  `none` models the `unwrap`
panic on a face with no vertices. -/
def minimums (bsp : BspFile) (axis : ProjectionAxis) (faces : List Face) :
    Option (List (Nat × ℚ)) :=
  (faces.mapM (minEntry bsp axis)).map List.reverse

/-- `HashMap` lookup on the association list: first entry from the head, i.e.
the entry inserted last. -/
def lookupMin (entries : List (Nat × ℚ)) (key : Nat) : Option ℚ :=
  (entries.find? (fun e => e.1 == key)).map (·.2)

/-- `filter_and_sort_faces` from `lib.rs`: filter by texture, memoize each
face's axis minimum keyed by `edge_list_index`, then stably sort ascending by
the memoized minimum.  `none` models the `unwrap` panics (empty face or — for
actual `f32` input — a NaN comparison). -/
def filter_and_sort_faces (bsp : BspFile) (axis : ProjectionAxis) :
    Option (List Face) :=
  let faces := filter_faces bsp
  (minimums bsp axis faces).map (fun entries =>
    faces.mergeSort (fun a b =>
      decide
        (((lookupMin entries a.edge_list_index).getD 0) ≤
          ((lookupMin entries b.edge_list_index).getD 0))))

/-- An `f32` as the color-sampling code observes it: NaN, +∞, or an exact
rational value (all the arithmetic the sampler performs on the small
byte-valued sums in scope is exact). -/
inductive F32 where
  | nan
  | posInf
  | val (q : ℚ)
deriving DecidableEq, Repr

/-- `f32` division as used by the sampler: `0.0 / 0.0` is NaN,
`x / 0.0` (`x > 0`) is +∞, otherwise exact. -/
def f32Div (a b : ℚ) : F32 :=
  if b = 0 then (if a = 0 then .nan else .posInf) else .val (a / b)

/-- Rust's saturating `as u32` cast: NaN to `0`, +∞ to `u32::MAX`, a finite
value truncated toward zero and clamped to `[0, u32::MAX]`. -/
def f32CastU32 : F32 → Nat
  | .nan => 0
  | .posInf => 4294967295
  | .val q => min (q.num.toNat / q.den) 4294967295

/-- One channel's accumulation loop in `convert`'s color sampling:
`for i in 0..len/3 { acc += data[i*3 + c] }`, as the sum of the summand over
the index range. -/
def channelSum (data : List Nat) (c : Nat) : ℚ :=
  ((List.range (data.length / 3)).map (fun i => ((data.getD (i * 3 + c) 0 : Nat) : ℚ))).sum

/-- The average color computed per texture in `convert`: per-channel sum over
the texel loop, divided by `data.len() as f32 / 3.0`, cast with `as u32`. -/
def sampleColor (data : List Nat) : Nat × Nat × Nat :=
  let total : ℚ := (data.length : ℚ) / 3
  (f32CastU32 (f32Div (channelSum data 0) total),
    f32CastU32 (f32Div (channelSum data 1) total),
    f32CastU32 (f32Div (channelSum data 2) total))

/-- The `color_per_tex_name` map of `convert`: one insertion per texture, in
texture order, modelled as for `minimums` (head = last insertion). -/
def color_per_tex_name (textures : List Texture) : List (String × (Nat × Nat × Nat)) :=
  ((textures.map (fun tex => (tex.name, sampleColor tex.data)))).reverse

/-- `HashMap::get` on the color table. -/
def lookupColor (table : List (String × (Nat × Nat × Nat))) (name : String) :
    Option (Nat × Nat × Nat) :=
  (table.find? (fun e => e.1 == name)).map (·.2)

/-- Rust `format!("{:02x}", n)`: lowercase hex, zero-padded to width 2. -/
def hex02 (n : Nat) : String :=
  let ds := Nat.toDigits 16 n
  ⟨List.replicate (2 - ds.length) '0' ++ ds⟩

/-- The `#rrggbb` fill string built in `convert`. -/
def hexColor : Nat × Nat × Nat → String
  | (r, g, b) => "#" ++ hex02 r ++ hex02 g ++ hex02 b

/-- The fill attribute of one polygon:
`color_per_tex_name.get(name).unwrap_or(&(255, 255, 255))`, hex-encoded. -/
def fillColor (table : List (String × (Nat × Nat × Nat))) (name : String) : String :=
  hexColor ((lookupColor table name).getD (255, 255, 255))

/-- `StuffToDraw` from `lib.rs` (depth fields hold the unwrapped values). -/
structure StuffToDraw where
  points : List (ℚ × ℚ)
  texture_name : String
  min_z : ℚ
  max_z : ℚ
deriving DecidableEq, Repr

/-- The per-face closure of `convert` building one `StuffToDraw`: projected
points via `get_face_vertice_indexes`, the texture name, and the min/max of
the original `z` coordinates, whose `reduce(..).unwrap()` panics (`none`) on
a face with no vertices. -/
def mkStuff (bsp : BspFile) (pvertices : List (ℚ × ℚ)) (face : Face) :
    Option StuffToDraw :=
  let points := face.vertexIndexes.map (fun i => pvertices.getD i (0, 0))
  match ((get_face_vertices bsp face).map (·.z)).max?,
      ((get_face_vertices bsp face).map (·.z)).min? with
  | some mx, some mn => some ⟨points, face.textureName, mn, mx⟩
  | _, _ => none

/-- One polygon element of the `bsp_ref` group: its points and its fill. -/
def polygonsOf (table : List (String × (Nat × Nat × Nat)))
    (stuff : List StuffToDraw) : List (List (ℚ × ℚ) × String) :=
  stuff.map (fun item => (item.points, fillColor table item.texture_name))

/-- The `bounds` tuple of `convert`: `(min x, max x, min y, max y)` over all
projected vertices; each `reduce(..).unwrap()` panics (`none`) when the level
has no vertices. -/
def boundsOf (pvertices : List (ℚ × ℚ)) : Option (ℚ × ℚ × ℚ × ℚ) :=
  match (pvertices.map Prod.fst).min?, (pvertices.map Prod.fst).max?,
      (pvertices.map Prod.snd).min?, (pvertices.map Prod.snd).max? with
  | some a, some b, some c, some d => some (a, b, c, d)
  | _, _, _, _ => none

/-- The fixed padding constant of `convert`. -/
def padding : ℚ := 100

/-- The observable geometric/color output of `convert`: the projected
vertices, the drawable `stuff_to_draw` list, the polygon (points, fill)
pairs of the `bsp_ref` group in order, and the `viewBox` numbers. -/
structure ConvertResult where
  pvertices : List (ℚ × ℚ)
  stuff_to_draw : List StuffToDraw
  polygons : List (List (ℚ × ℚ) × String)
  viewbox : ℚ × ℚ × ℚ × ℚ
deriving DecidableEq, Repr

/-- `convert` from `lib.rs`, restricted to its observable pure output: axis
hardcoded to `Z`, projection of all vertices, color table over all textures,
filtered-and-sorted faces mapped to `StuffToDraw` (dropping those with no
points), polygons with sampled (or fallback) fills, and the padded viewBox
from the bounds of all projected vertices.  `none` models any `unwrap`
panic on the way. -/
def convert (bsp : BspFile) : Option ConvertResult :=
  let axis := ProjectionAxis.Z
  let pvertices := project bsp.vertices axis
  let table := color_per_tex_name bsp.textures
  (filter_and_sort_faces bsp axis).bind (fun faces =>
    (faces.mapM (mkStuff bsp pvertices)).bind (fun allStuff =>
      let stuff := allStuff.filter (fun s => !s.points.isEmpty)
      (boundsOf pvertices).map (fun b =>
        { pvertices := pvertices
          stuff_to_draw := stuff
          polygons := polygonsOf table stuff
          viewbox := (b.1 - padding, b.2.2.1 - padding,
            b.2.1 - b.1 + 2 * padding, b.2.2.2 - b.2.2.1 + 2 * padding) })))

/-- The ordering property claimed of the sorted output: both adjacent faces
have a defined axis minimum and they are in ascending order. -/
def minLe (bsp : BspFile) (axis : ProjectionAxis) (a b : Face) : Prop :=
  ∃ qa qb, faceMin bsp axis a = some qa ∧ faceMin bsp axis b = some qb ∧ qa ≤ qb

/-! ### Concrete fixtures -/

/-- Counterexample fixture: two distinct faces sharing `edge_list_index = 0`.
The first face's only vertex has `z = 5`, the second's has `z = 1`. -/
def c1FaceA : Face := ⟨0, "wall", [0]⟩

/-- Second face of the duplicate-key fixture (see `c1FaceA`). -/
def c1FaceB : Face := ⟨0, "wall", [1]⟩

/-- A level on which the duplicate memo key corrupts the sort: inserting
face `c1FaceB`'s minimum overwrites face `c1FaceA`'s, so both faces compare
equal and the stable sort leaves them in original order `[A, B]`, with
actual axis minimums `5, 1`. -/
def c1Bsp : BspFile := ⟨[⟨0, 0, 5⟩, ⟨0, 0, 1⟩], [c1FaceA, c1FaceB], []⟩

/-- Witness fixture: face with distinct key `1`, single vertex `z = 5`. -/
def c1wFaceHigh : Face := ⟨1, "wall", [0]⟩

/-- Witness fixture: face with distinct key `2`, single vertex `z = 1`. -/
def c1wFaceLow : Face := ⟨2, "wall", [1]⟩

/-- A well-behaved level with pairwise-distinct memo keys. -/
def c1wBsp : BspFile := ⟨[⟨0, 0, 5⟩, ⟨0, 0, 1⟩], [c1wFaceHigh, c1wFaceLow], []⟩

/-- A face with no vertices and a non-ignored texture. -/
def c2Face : Face := ⟨0, "wall", []⟩

/-- A level containing a face that yields no vertices for the depth
computation. -/
def c2Bsp : BspFile := ⟨[⟨0, 0, 0⟩], [c2Face], []⟩

/-- A face whose texture is kept by the filter. -/
def c3FaceKeep : Face := ⟨0, "wall", [0]⟩

/-- A face whose texture matches the substring needle "sky". -/
def c3FaceSkip : Face := ⟨1, "sky1", [0]⟩

/-- A level with one kept and one ignored face. -/
def c3Bsp : BspFile := ⟨[⟨0, 0, 0⟩], [c3FaceKeep, c3FaceSkip], []⟩

/-- A raster of `n` texels, each the same interleaved RGB triple. -/
def uniformRaster (r g b : Nat) : Nat → List Nat
  | 0 => []
  | n + 1 => r :: g :: b :: uniformRaster r g b n

/-- A one-vertex level (no faces, no textures). -/
def c8Bsp : BspFile := ⟨[⟨3, 4, 0⟩], [], []⟩

/-- The output `convert` produces for `c8Bsp`. -/
def c8Res : ConvertResult := ⟨[(3, -4)], [], [], (-97, -104, 200, 200)⟩

/-- A texture whose fetched raster is empty. -/
def c9Tex : Texture := ⟨"void", []⟩

/-- A one-vertex level exercising the hardcoded projection axis. -/
def c10Bsp : BspFile := ⟨[⟨1, 2, 3⟩], [], []⟩

/-- The output `convert` produces for `c10Bsp`. -/
def c10Res : ConvertResult := ⟨[(1, -2)], [], [], (-99, -102, 200, 200)⟩

/-! ### Helper lemmas about the memoized minimums -/

/-- If the `minimums` loop completes, the produced entries carry exactly the
faces' keys in face order, and every face's minimum is defined and present. -/
theorem minEntries_spec {bsp : BspFile} {axis : ProjectionAxis} :
    ∀ {faces : List Face} {l : List (Nat × ℚ)},
      faces.mapM (minEntry bsp axis) = some l →
      l.map Prod.fst = faces.map (·.edge_list_index) ∧
        ∀ f ∈ faces, ∃ q, faceMin bsp axis f = some q ∧ (f.edge_list_index, q) ∈ l := by
  intro faces
  induction faces with
  | nil =>
    intro l hm
    simp only [List.mapM_nil, Option.pure_def, Option.some.injEq] at hm
    subst hm
    simp
  | cons f₀ fs ih =>
    intro l hm
    rcases hp₀ : minEntry bsp axis f₀ with _ | p₀
    · rw [List.mapM_cons, hp₀] at hm; simp at hm
    rcases hrest : fs.mapM (minEntry bsp axis) with _ | rest
    · rw [List.mapM_cons, hp₀, hrest] at hm; simp at hm
    rw [List.mapM_cons, hp₀, hrest] at hm
    simp at hm
    obtain ⟨q₀, hq₀, hp₀'⟩ := Option.map_eq_some'.mp hp₀
    obtain ⟨hkeys, hmem⟩ := ih hrest
    subst hm
    subst hp₀'
    refine ⟨by simpa using hkeys, ?_⟩
    intro f hf
    rcases List.mem_cons.mp hf with rfl | hf'
    · exact ⟨q₀, hq₀, List.mem_cons_self _ _⟩
    · obtain ⟨q, hq, hqmem⟩ := hmem f hf'
      exact ⟨q, hq, List.mem_cons_of_mem _ hqmem⟩

/-- With pairwise-distinct keys, looking a face's key up in the completed
(reversed) `minimums` association list yields that face's own minimum. -/
theorem lookupMin_minEntries {bsp : BspFile} {axis : ProjectionAxis} :
    ∀ {faces : List Face} {l : List (Nat × ℚ)},
      faces.Pairwise (fun a b => a.edge_list_index ≠ b.edge_list_index) →
      faces.mapM (minEntry bsp axis) = some l →
      ∀ f ∈ faces, lookupMin l.reverse f.edge_list_index = faceMin bsp axis f := by
  intro faces
  induction faces with
  | nil => intro l _ _ f hf; simp at hf
  | cons f₀ fs ih =>
    intro l hp hm f hf
    rcases hp₀ : minEntry bsp axis f₀ with _ | p₀
    · rw [List.mapM_cons, hp₀] at hm; simp at hm
    rcases hrest : fs.mapM (minEntry bsp axis) with _ | rest
    · rw [List.mapM_cons, hp₀, hrest] at hm; simp at hm
    rw [List.mapM_cons, hp₀, hrest] at hm
    simp at hm
    obtain ⟨q₀, hq₀, hp₀'⟩ := Option.map_eq_some'.mp hp₀
    subst hm
    subst hp₀'
    have hkeys := (minEntries_spec hrest).1
    rcases List.mem_cons.mp hf with rfl | hf'
    · have hnone : rest.reverse.find? (fun e => e.1 == f.edge_list_index) = none := by
        rw [List.find?_eq_none]
        intro x hx
        have hx' : x ∈ rest := List.mem_reverse.mp hx
        have : x.1 ∈ rest.map Prod.fst := List.mem_map_of_mem _ hx'
        rw [hkeys] at this
        obtain ⟨b, hb, hbkey⟩ := List.mem_map.mp this
        have hne : f.edge_list_index ≠ b.edge_list_index :=
          (List.pairwise_cons.mp hp).1 b hb
        simp only [beq_iff_eq]
        intro hxk
        exact hne ((hbkey.trans hxk).symm)
      simp only [lookupMin, List.reverse_cons, List.find?_append, hnone,
        Option.none_or, List.find?_cons, beq_self_eq_true, hq₀]
      rfl
    · have hrec := ih (List.pairwise_cons.mp hp).2 hrest f hf'
      obtain ⟨q, hq, hqmem⟩ := (minEntries_spec hrest).2 f hf'
      rcases hfind : rest.reverse.find? (fun e => e.1 == f.edge_list_index) with _ | p
      · exfalso
        rw [lookupMin, hfind] at hrec
        rw [hq] at hrec
        simp at hrec
      · rw [lookupMin, List.reverse_cons, List.find?_append, hfind]
        rw [lookupMin, hfind] at hrec
        simpa using hrec

/-! ### Claim theorems -/

/-- C1 (amended): for every level whose *filtered faces carry
pairwise-distinct `edge_list_index` keys* and every axis, the face sequence
returned by `filter_and_sort_faces` is sorted ascending by each face's
minimum coordinate along the chosen axis computed from the original 3D
vertex coordinates, and faces sharing the same minimum keep their original
relative order (stable sort).  The distinct-keys hypothesis is forced by the
counterexample `c1_duplicate_key_corrupts_sort`: the memo table is keyed by
`edge_list_index`, so a duplicated key silently merges two faces' minimums. -/
theorem c1_sorted_and_stable (bsp : BspFile) (axis : ProjectionAxis)
    (out : List Face)
    (hkeys : (filter_faces bsp).Pairwise
      (fun a b => a.edge_list_index ≠ b.edge_list_index))
    (hout : filter_and_sort_faces bsp axis = some out) :
    out.Chain' (minLe bsp axis) ∧
      ∀ q : ℚ,
        out.filter (fun f => decide (faceMin bsp axis f = some q)) =
          (filter_faces bsp).filter (fun f => decide (faceMin bsp axis f = some q)) := by
  unfold filter_and_sort_faces at hout
  obtain ⟨entries, hm, hmerge⟩ := Option.map_eq_some'.mp hout
  unfold minimums at hm
  obtain ⟨l, hl, rfl⟩ := Option.map_eq_some'.mp hm
  set faces := filter_faces bsp with hfaces
  set le : Face → Face → Bool := fun a b =>
    decide (((lookupMin l.reverse a.edge_list_index).getD 0) ≤
      ((lookupMin l.reverse b.edge_list_index).getD 0)) with hle
  have hlook : ∀ f ∈ faces, lookupMin l.reverse f.edge_list_index = faceMin bsp axis f :=
    lookupMin_minEntries hkeys hl
  have hdef : ∀ f ∈ faces, ∃ q, faceMin bsp axis f = some q := by
    intro f hf
    obtain ⟨q, hq, _⟩ := (minEntries_spec hl).2 f hf
    exact ⟨q, hq⟩
  have htrans : ∀ a b c : Face, le a b → le b c → le a c := by
    intro a b c hab hbc
    simp only [hle, decide_eq_true_eq] at hab hbc ⊢
    exact le_trans hab hbc
  have htotal : ∀ a b : Face, le a b || le b a := by
    intro a b
    simp only [hle, Bool.or_eq_true, decide_eq_true_eq]
    exact le_total _ _
  have hperm : out.Perm faces := by
    rw [← hmerge]
    exact List.mergeSort_perm faces le
  have hsorted : out.Pairwise (fun a b => le a b = true) := by
    rw [← hmerge]
    exact List.sorted_mergeSort htrans htotal faces
  constructor
  · refine List.Pairwise.chain' (List.Pairwise.imp_of_mem ?_ hsorted)
    intro a b ha hb hab
    have ha' : a ∈ faces := hperm.subset ha
    have hb' : b ∈ faces := hperm.subset hb
    obtain ⟨qa, hqa⟩ := hdef a ha'
    obtain ⟨qb, hqb⟩ := hdef b hb'
    refine ⟨qa, qb, hqa, hqb, ?_⟩
    simp only [hle, decide_eq_true_eq] at hab
    rw [hlook a ha', hlook b hb', hqa, hqb] at hab
    simpa using hab
  · intro q
    set pred : Face → Bool := fun f => decide (faceMin bsp axis f = some q) with hpred
    have hsubl : List.Sublist (faces.filter pred) faces := List.filter_sublist faces
    have hself : ∀ a ∈ faces.filter pred, pred a := fun a ha => (List.mem_filter.mp ha).2
    have hcpair : (faces.filter pred).Pairwise (fun a b => le a b = true) := by
      apply List.pairwise_of_forall_mem_list
      intro a ha b hb
      have hfa : faceMin bsp axis a = some q := of_decide_eq_true (hself a ha)
      have hfb : faceMin bsp axis b = some q := of_decide_eq_true (hself b hb)
      have ha' : a ∈ faces := (List.mem_filter.mp ha).1
      have hb' : b ∈ faces := (List.mem_filter.mp hb).1
      simp only [hle, decide_eq_true_eq]
      rw [hlook a ha', hlook b hb', hfa, hfb]
    have hsub2 : List.Sublist (faces.filter pred) out := by
      rw [← hmerge]
      exact List.sublist_mergeSort htrans htotal hcpair hsubl
    have hpf : (out.filter pred).Perm (faces.filter pred) := hperm.filter pred
    have hsub3 : List.Sublist (faces.filter pred) (out.filter pred) := by
      have h4 := hsub2.filter pred
      rwa [List.filter_eq_self.mpr hself] at h4
    exact (hsub3.eq_of_length hpf.length_eq.symm).symm

section
attribute [local semireducible] Rat.mul Rat.inv Rat.add Rat.sub

/-- C1 counterexample: on `c1Bsp` two distinct faces share
`edge_list_index = 0`, the second face's minimum (`1`) overwrites the first's
(`5`) in the memo table, both faces compare equal, and the stable sort
returns them in original order `[c1FaceA, c1FaceB]` — which is *not* sorted
by each face's own axis minimum (`5 ≰ 1`).  Hence the claim as stated (for
*every* level) is false. -/
theorem c1_duplicate_key_corrupts_sort :
    ¬ ∀ out : List Face,
        filter_and_sort_faces c1Bsp ProjectionAxis.Z = some out →
          out.Chain' (minLe c1Bsp ProjectionAxis.Z) := by
  intro h
  have hout : filter_and_sort_faces c1Bsp ProjectionAxis.Z = some [c1FaceA, c1FaceB] := by
    simp +decide [filter_and_sort_faces, minimums, minEntry, faceMin, filter_faces,
      get_face_vertices, c1Bsp, c1FaceA, c1FaceB, is_ignored_texture, strContains,
      lookupMin, List.mergeSort, List.splitInTwo, List.merge]
  have hchain := h _ hout
  rw [List.chain'_cons] at hchain
  obtain ⟨hab, -⟩ := hchain
  obtain ⟨qa, qb, hqa, hqb, hle⟩ := hab
  have ha : faceMin c1Bsp ProjectionAxis.Z c1FaceA = some 5 := by decide
  have hb : faceMin c1Bsp ProjectionAxis.Z c1FaceB = some 1 := by decide
  have e1 : qa = (5 : ℚ) := by
    have := ha.symm.trans hqa
    exact (Option.some.injEq _ _ ▸ this).symm
  have e2 : qb = (1 : ℚ) := by
    have := hb.symm.trans hqb
    exact (Option.some.injEq _ _ ▸ this).symm
  rw [e1, e2] at hle
  exact absurd hle (by decide)

/-- C1 witness: `c1_sorted_and_stable` applied to the concrete level
`c1wBsp` (distinct keys), whose sorted output is `[c1wFaceLow, c1wFaceHigh]`. -/
theorem c1_sorted_and_stable_witness :
    List.Chain' (minLe c1wBsp ProjectionAxis.Z) [c1wFaceLow, c1wFaceHigh] ∧
      ∀ q : ℚ,
        [c1wFaceLow, c1wFaceHigh].filter
            (fun f => decide (faceMin c1wBsp ProjectionAxis.Z f = some q)) =
          (filter_faces c1wBsp).filter
            (fun f => decide (faceMin c1wBsp ProjectionAxis.Z f = some q)) :=
  c1_sorted_and_stable c1wBsp ProjectionAxis.Z [c1wFaceLow, c1wFaceHigh]
    (by decide)
    (by simp +decide [filter_and_sort_faces, minimums, minEntry, faceMin, filter_faces,
      get_face_vertices, c1wBsp, c1wFaceHigh, c1wFaceLow, is_ignored_texture, strContains,
      lookupMin, List.mergeSort, List.splitInTwo, List.merge])

/-- C2: the claim demands a reported, catchable `DepthComputationError` when
a face yields no vertices for the depth computation; the code instead
`unwrap`s the empty reduction and aborts.  On `c2Bsp` (one face with no
vertices, texture not ignored) the ordering computation and the whole
conversion panic — modelled as `none` — instead of returning a catchable
error value to the caller. -/
theorem c2_empty_face_panics :
    filter_and_sort_faces c2Bsp ProjectionAxis.Z = none ∧ convert c2Bsp = none := by
  decide

end

/-- C3: for every level, `filter_faces` returns exactly the faces whose
texture name is not ignored, in the level's original face order (it is a
sublist of the face sequence and membership is characterized by the ignore
predicate); consequently no face whose texture name is ignored appears in
the ordered output of `filter_and_sort_faces`. -/
theorem c3_filter_excludes_ignored (bsp : BspFile) (axis : ProjectionAxis) :
    List.Sublist (filter_faces bsp) bsp.faces ∧
      (∀ f : Face, f ∈ filter_faces bsp ↔
        f ∈ bsp.faces ∧ is_ignored_texture f.textureName = false) ∧
      ∀ out : List Face, filter_and_sort_faces bsp axis = some out →
        ∀ f ∈ out, is_ignored_texture f.textureName = false := by
  refine ⟨List.filter_sublist _, ?_, ?_⟩
  · intro f
    simp [filter_faces, List.mem_filter]
  · intro out hout f hf
    unfold filter_and_sort_faces at hout
    obtain ⟨entries, hm, hmerge⟩ := Option.map_eq_some'.mp hout
    rw [← hmerge] at hf
    have hf' : f ∈ filter_faces bsp := List.mem_mergeSort.mp hf
    have h2 := (List.mem_filter.mp hf').2
    simpa using h2

section
attribute [local semireducible] Rat.mul Rat.inv Rat.add Rat.sub

/-- C3 witness: on `c3Bsp` the ignored face `c3FaceSkip` is dropped; the
surviving output face is not ignored. -/
theorem c3_filter_excludes_ignored_witness :
    is_ignored_texture c3FaceKeep.textureName = false :=
  (c3_filter_excludes_ignored c3Bsp ProjectionAxis.Z).2.2 [c3FaceKeep]
    (by simp +decide [filter_and_sort_faces, minimums, minEntry, faceMin, filter_faces,
      get_face_vertices, c3Bsp, c3FaceKeep, c3FaceSkip, is_ignored_texture, strContains,
      lookupMin, List.mergeSort, List.splitInTwo, List.merge])
    c3FaceKeep (by simp)

end

/-- C4: for every vertex list and axis, projection is pure and
order-preserving with output length equal to input length (index `i` of the
output is the projection of index `i` of the input), and maps `(x, y, z)` to
`(y, z)` for axis X, `(x, z)` for axis Y, and `(x, −y)` for axis Z. -/
theorem c4_projection_spec (vertices : List Vertex) (axis : ProjectionAxis) :
    (project vertices axis).length = vertices.length ∧
      (∀ i : Nat, (project vertices axis)[i]? = (vertices[i]?).map (projectVertex axis)) ∧
      ∀ v : Vertex,
        projectVertex ProjectionAxis.X v = (v.y, v.z) ∧
          projectVertex ProjectionAxis.Y v = (v.x, v.z) ∧
          projectVertex ProjectionAxis.Z v = (v.x, -v.y) := by
  refine ⟨by simp [project], ?_, ?_⟩
  · intro i
    simp [project]
  · intro v
    exact ⟨rfl, rfl, rfl⟩

/-- The classifier as one boolean formula: exact matches first, then the
substring needles. -/
theorem is_ignored_texture_eq (name : String) :
    is_ignored_texture name =
      (name == "clip" || name == "hint" || name == "trigger" || name == "163" ||
        strContains name "sky" || strContains name "light" ||
        strContains name "tech" || strContains name "wood") := by
  unfold is_ignored_texture
  rcases h : (["clip", "hint", "trigger", "163"].any (fun n => n == name)) with _ | _
  · have h' := h
    simp only [List.any_cons, List.any_nil, Bool.or_false, Bool.or_eq_false_iff,
      beq_eq_false_iff_ne] at h'
    obtain ⟨h1, h2, h3, h4⟩ := h'
    have e1 : (name == "clip") = false := by
      rw [beq_eq_false_iff_ne]; exact fun hh => h1 hh.symm
    have e2 : (name == "hint") = false := by
      rw [beq_eq_false_iff_ne]; exact fun hh => h2 hh.symm
    have e3 : (name == "trigger") = false := by
      rw [beq_eq_false_iff_ne]; exact fun hh => h3 hh.symm
    have e4 : (name == "163") = false := by
      rw [beq_eq_false_iff_ne]; exact fun hh => h4 hh.symm
    simp [h, List.any_cons, List.any_nil, e1, e2, e3, e4, Bool.or_assoc]
  · have h' := h
    simp only [List.any_cons, List.any_nil, Bool.or_false, Bool.or_eq_true,
      beq_iff_eq] at h'
    simp only [h, if_true]
    rcases h' with hh | hh | hh | hh <;> subst hh <;> decide

/-- C5: for every texture name string, `is_ignored_texture` returns true iff
the name equals one of "clip", "hint", "trigger", "163" exactly, or contains
one of the substrings "sky", "light", "tech", "wood"; matching is
case-sensitive: `is_ignored("clip") = true`, `is_ignored("sky1") = true`,
`is_ignored("wall") = false`, `is_ignored("CLIP") = false`. -/
theorem c5_is_ignored_spec :
    (∀ name : String, is_ignored_texture name = true ↔
      (name = "clip" ∨ name = "hint" ∨ name = "trigger" ∨ name = "163" ∨
        strContains name "sky" = true ∨ strContains name "light" = true ∨
        strContains name "tech" = true ∨ strContains name "wood" = true)) ∧
      is_ignored_texture "clip" = true ∧ is_ignored_texture "sky1" = true ∧
      is_ignored_texture "wall" = false ∧ is_ignored_texture "CLIP" = false := by
  refine ⟨?_, by decide, by decide, by decide, by decide⟩
  intro name
  rw [is_ignored_texture_eq]
  simp only [Bool.or_eq_true, beq_iff_eq]
  tauto

/-- Length of the uniform raster: three bytes per texel. -/
theorem uniformRaster_length (r g b n : Nat) :
    (uniformRaster r g b n).length = 3 * n := by
  induction n with
  | zero => rfl
  | succ n ih =>
    show (r :: g :: b :: uniformRaster r g b n).length = 3 * (n + 1)
    simp [ih]
    ring

/-- Peeling one texel off the channel accumulation loop. -/
theorem channelSum_cons3 (a b d : Nat) (rest : List Nat) (c : Nat) (hc : c < 3) :
    channelSum (a :: b :: d :: rest) c = ([a, b, d].getD c 0 : ℚ) + channelSum rest c := by
  unfold channelSum
  have hlen : (a :: b :: d :: rest).length = rest.length + 3 := by
    simp [List.length_cons]
  rw [hlen, Nat.add_div_right _ (by norm_num), List.range_succ_eq_map]
  simp only [List.map_cons, List.sum_cons, List.map_map]
  congr 1
  · interval_cases c <;> rfl
  · have hfun : ((fun i => (((a :: b :: d :: rest).getD (i * 3 + c) 0 : Nat) : ℚ)) ∘ Nat.succ)
        = fun i => ((rest.getD (i * 3 + c) 0 : Nat) : ℚ) := by
      funext i
      show ((a :: b :: d :: rest).getD ((i + 1) * 3 + c) 0 : ℚ) = ((rest.getD (i * 3 + c) 0 : Nat) : ℚ)
      have he : (i + 1) * 3 + c = (i * 3 + c) + 1 + 1 + 1 := by ring
      rw [he, List.getD_cons_succ, List.getD_cons_succ, List.getD_cons_succ]
    rw [hfun]

/-- The channel sum over a uniform raster is `n` times the channel value. -/
theorem channelSum_uniform (r g b n c : Nat) (hc : c < 3) :
    channelSum (uniformRaster r g b n) c = n * ([r, g, b].getD c 0 : ℚ) := by
  induction n with
  | zero => simp [uniformRaster, channelSum]
  | succ n ih =>
    show channelSum (r :: g :: b :: uniformRaster r g b n) c = _
    rw [channelSum_cons3 _ _ _ _ _ hc, ih]
    push_cast
    ring

/-- Exact division by a nonzero denominator never produces NaN. -/
theorem f32Div_mul_cancel (k n : ℚ) (hn : n ≠ 0) : f32Div (n * k) n = F32.val k := by
  unfold f32Div
  rw [if_neg hn, mul_div_cancel_left₀ _ hn]

/-- Casting a small natural number back out of the `f32` model. -/
theorem f32CastU32_natCast (k : Nat) (hk : k ≤ 4294967295) :
    f32CastU32 (F32.val (k : ℚ)) = k := by
  show min ((k : ℚ).num.toNat / (k : ℚ).den) 4294967295 = k
  rw [Rat.num_natCast, Rat.den_natCast]
  simp [min_eq_left hk]

section
attribute [local semireducible] Rat.mul Rat.inv Rat.add Rat.sub

/-- C6: color sampling computes the per-channel arithmetic mean over all
texels (interleaved 3-channel samples) and truncates it to an integer: a
raster of `n > 0` texels all `(10, 20, 30)` yields exactly `(10, 20, 30)`
and the emitted fill attribute is the lowercase hex string `"#0a141e"`; a
raster with channel sums `1 + 2` over two texels truncates the mean `1.5`
down to `1` (not up to `2`). -/
theorem c6_mean_color_truncated (n : Nat) (nm : String) (hn : 0 < n) :
    sampleColor (uniformRaster 10 20 30 n) = (10, 20, 30) ∧
      fillColor (color_per_tex_name [⟨nm, uniformRaster 10 20 30 n⟩]) nm = "#0a141e" ∧
      sampleColor [1, 0, 0, 2, 0, 0] = (1, 0, 0) := by
  have hnq : (n : ℚ) ≠ 0 := Nat.cast_ne_zero.mpr hn.ne'
  have htotal : ((uniformRaster 10 20 30 n).length : ℚ) / 3 = (n : ℚ) := by
    rw [uniformRaster_length]
    push_cast
    exact mul_div_cancel_left₀ _ (by norm_num)
  have hs : sampleColor (uniformRaster 10 20 30 n) = (10, 20, 30) := by
    unfold sampleColor
    rw [htotal]
    dsimp only
    rw [channelSum_uniform 10 20 30 n 0 (by norm_num),
      channelSum_uniform 10 20 30 n 1 (by norm_num),
      channelSum_uniform 10 20 30 n 2 (by norm_num)]
    rw [show ([10, 20, 30].getD 0 0) = 10 from rfl,
      show ([10, 20, 30].getD 1 0) = 20 from rfl,
      show ([10, 20, 30].getD 2 0) = 30 from rfl]
    rw [f32Div_mul_cancel _ _ hnq, f32Div_mul_cancel _ _ hnq, f32Div_mul_cancel _ _ hnq]
    rw [f32CastU32_natCast 10 (by norm_num), f32CastU32_natCast 20 (by norm_num),
      f32CastU32_natCast 30 (by norm_num)]
  have htab : lookupColor (color_per_tex_name [⟨nm, uniformRaster 10 20 30 n⟩]) nm
      = some (sampleColor (uniformRaster 10 20 30 n)) := by
    simp [color_per_tex_name, lookupColor]
  refine ⟨hs, ?_, by decide⟩
  rw [fillColor, htab, Option.getD_some, hs]
  rfl

/-- C6 witness: `c6_mean_color_truncated` at the two-texel uniform raster. -/
theorem c6_mean_color_truncated_witness :
    0 < 2 ∧ sampleColor (uniformRaster 10 20 30 2) = (10, 20, 30) :=
  ⟨by decide, (c6_mean_color_truncated 2 "metal" (by decide)).1⟩

end

/-- C7: a drawable face whose texture name is absent from the color table at
draw time gets fill `"#ffffff"` (opaque white); the fallback is the total
`getD` default — no error value exists on this path — and the points
component of every polygon is independent of the color table. -/
theorem c7_missing_color_white (table : List (String × (Nat × Nat × Nat)))
    (name : String) (h : lookupColor table name = none) :
    fillColor table name = "#ffffff" ∧
      ∀ stuff : List StuffToDraw,
        (polygonsOf table stuff).map Prod.fst = stuff.map (·.points) := by
  constructor
  · rw [fillColor, h]
    rfl
  · intro stuff
    simp [polygonsOf]

/-- C7 witness: the empty color table misses "metal" and yields white. -/
theorem c7_missing_color_white_witness :
    lookupColor ([] : List (String × (Nat × Nat × Nat))) "metal" = none ∧
      fillColor ([] : List (String × (Nat × Nat × Nat))) "metal" = "#ffffff" :=
  ⟨rfl, (c7_missing_color_white [] "metal" rfl).1⟩

/-- C8: whenever `convert` emits a document, its viewBox is exactly
`(min_u − padding, min_v − padding, (max_u − min_u) + 2·padding,
(max_v − min_v) + 2·padding)` where the extrema are attained over *all*
projected points (the projection of every level vertex, drawable or not)
and `padding` is the fixed constant. -/
theorem c8_viewbox_formula (bsp : BspFile) (res : ConvertResult)
    (h : convert bsp = some res) :
    ∃ mu Mu mv Mv : ℚ,
      (mu ∈ (project bsp.vertices ProjectionAxis.Z).map Prod.fst ∧
        ∀ u ∈ (project bsp.vertices ProjectionAxis.Z).map Prod.fst, mu ≤ u) ∧
      (Mu ∈ (project bsp.vertices ProjectionAxis.Z).map Prod.fst ∧
        ∀ u ∈ (project bsp.vertices ProjectionAxis.Z).map Prod.fst, u ≤ Mu) ∧
      (mv ∈ (project bsp.vertices ProjectionAxis.Z).map Prod.snd ∧
        ∀ v ∈ (project bsp.vertices ProjectionAxis.Z).map Prod.snd, mv ≤ v) ∧
      (Mv ∈ (project bsp.vertices ProjectionAxis.Z).map Prod.snd ∧
        ∀ v ∈ (project bsp.vertices ProjectionAxis.Z).map Prod.snd, v ≤ Mv) ∧
      res.viewbox = (mu - padding, mv - padding,
        (Mu - mu) + 2 * padding, (Mv - mv) + 2 * padding) := by
  unfold convert at h
  obtain ⟨faces, hfaces, h1⟩ := Option.bind_eq_some.mp h
  obtain ⟨allStuff, hstuff, h2⟩ := Option.bind_eq_some.mp h1
  obtain ⟨b, hb, hres⟩ := Option.map_eq_some'.mp h2
  unfold boundsOf at hb
  rcases e1 : ((project bsp.vertices ProjectionAxis.Z).map Prod.fst).min? with _ | mu
  · rw [e1] at hb; simp at hb
  rcases e2 : ((project bsp.vertices ProjectionAxis.Z).map Prod.fst).max? with _ | Mu
  · rw [e1, e2] at hb; simp at hb
  rcases e3 : ((project bsp.vertices ProjectionAxis.Z).map Prod.snd).min? with _ | mv
  · rw [e1, e2, e3] at hb; simp at hb
  rcases e4 : ((project bsp.vertices ProjectionAxis.Z).map Prod.snd).max? with _ | Mv
  · rw [e1, e2, e3, e4] at hb; simp at hb
  rw [e1, e2, e3, e4] at hb
  simp only [Option.some.injEq] at hb
  subst hb
  refine ⟨mu, Mu, mv, Mv, ?_, ?_, ?_, ?_, ?_⟩
  · exact ⟨List.min?_mem (fun a b => min_choice a b) e1,
      fun u hu => (List.le_min?_iff (fun a b c => le_min_iff) e1).mp le_rfl u hu⟩
  · exact ⟨List.max?_mem (fun a b => max_choice a b) e2,
      fun u hu => (List.max?_le_iff (fun a b c => max_le_iff) e2).mp le_rfl u hu⟩
  · exact ⟨List.min?_mem (fun a b => min_choice a b) e3,
      fun v hv => (List.le_min?_iff (fun a b c => le_min_iff) e3).mp le_rfl v hv⟩
  · exact ⟨List.max?_mem (fun a b => max_choice a b) e4,
      fun v hv => (List.max?_le_iff (fun a b c => max_le_iff) e4).mp le_rfl v hv⟩
  · rw [← hres]

section
attribute [local semireducible] Rat.mul Rat.inv Rat.add Rat.sub

/-- C8 witness: `c8_viewbox_formula` at the one-vertex level `c8Bsp`. -/
theorem c8_viewbox_formula_witness :
    ∃ mu Mu mv Mv : ℚ,
      (mu ∈ (project c8Bsp.vertices ProjectionAxis.Z).map Prod.fst ∧
        ∀ u ∈ (project c8Bsp.vertices ProjectionAxis.Z).map Prod.fst, mu ≤ u) ∧
      (Mu ∈ (project c8Bsp.vertices ProjectionAxis.Z).map Prod.fst ∧
        ∀ u ∈ (project c8Bsp.vertices ProjectionAxis.Z).map Prod.fst, u ≤ Mu) ∧
      (mv ∈ (project c8Bsp.vertices ProjectionAxis.Z).map Prod.snd ∧
        ∀ v ∈ (project c8Bsp.vertices ProjectionAxis.Z).map Prod.snd, mv ≤ v) ∧
      (Mv ∈ (project c8Bsp.vertices ProjectionAxis.Z).map Prod.snd ∧
        ∀ v ∈ (project c8Bsp.vertices ProjectionAxis.Z).map Prod.snd, v ≤ Mv) ∧
      ConvertResult.viewbox c8Res = (mu - padding, mv - padding,
        (Mu - mu) + 2 * padding, (Mv - mv) + 2 * padding) :=
  c8_viewbox_formula c8Bsp c8Res
    (by simp +decide [convert, filter_and_sort_faces, minimums, minEntry, faceMin,
      filter_faces, get_face_vertices, project, projectVertex, boundsOf, padding,
      color_per_tex_name, mkStuff, polygonsOf, fillColor, lookupColor, c8Bsp, c8Res,
      List.mergeSort])

/-- C9: a texture whose fetched raster contains zero bytes does not fail
color sampling; the per-channel `0 / 0` is NaN in the `f32` model, the cast
turns NaN into `0`, the ColorTable entry becomes `(0, 0, 0)`, and faces with
that texture are filled `"#000000"` (not white, and the whole path is
total — no error is raised). -/
theorem c9_empty_raster_black (t : Texture) (h : t.data = []) :
    sampleColor t.data = (0, 0, 0) ∧
      fillColor (color_per_tex_name [t]) t.name = "#000000" ∧
      f32Div 0 0 = F32.nan ∧ f32CastU32 F32.nan = 0 := by
  have h1 : sampleColor t.data = (0, 0, 0) := by
    rw [h]
    decide
  refine ⟨h1, ?_, by decide, rfl⟩
  have htab : lookupColor (color_per_tex_name [t]) t.name = some (sampleColor t.data) := by
    simp [color_per_tex_name, lookupColor]
  rw [fillColor, htab, Option.getD_some, h1]
  rfl

/-- C9 witness: `c9_empty_raster_black` at the concrete empty texture. -/
theorem c9_empty_raster_black_witness :
    Texture.data c9Tex = [] ∧ sampleColor c9Tex.data = (0, 0, 0) :=
  ⟨rfl, (c9_empty_raster_black c9Tex rfl).1⟩

end

/-- C10: `convert` always uses projection axis Z regardless of its inputs
(the caller cannot choose an axis): whenever it emits a result, the
projected points are `(x, −y)` of the source vertices at every index, and
the drawable faces are built from `filter_and_sort_faces` with axis Z —
i.e. face ordering is by minimum `z`. -/
theorem c10_axis_hardcoded_z (bsp : BspFile) (res : ConvertResult)
    (h : convert bsp = some res) :
    res.pvertices = project bsp.vertices ProjectionAxis.Z ∧
      (∀ i : Nat, res.pvertices[i]? = (bsp.vertices[i]?).map (fun v => (v.x, -v.y))) ∧
      ∃ faces allStuff,
        filter_and_sort_faces bsp ProjectionAxis.Z = some faces ∧
          faces.mapM (mkStuff bsp (project bsp.vertices ProjectionAxis.Z)) = some allStuff ∧
          res.stuff_to_draw = allStuff.filter (fun s => !s.points.isEmpty) := by
  unfold convert at h
  obtain ⟨faces, hfaces, h1⟩ := Option.bind_eq_some.mp h
  obtain ⟨allStuff, hstuff, h2⟩ := Option.bind_eq_some.mp h1
  obtain ⟨b, hb, hres⟩ := Option.map_eq_some'.mp h2
  refine ⟨?_, ?_, faces, allStuff, hfaces, hstuff, ?_⟩
  · rw [← hres]
  · intro i
    rw [← hres]
    show (project bsp.vertices ProjectionAxis.Z)[i]? = _
    simp only [project, List.getElem?_map]
    cases bsp.vertices[i]? <;> rfl
  · rw [← hres]

section
attribute [local semireducible] Rat.mul Rat.inv Rat.add Rat.sub

/-- C10 witness: `c10_axis_hardcoded_z` at the one-vertex level `c10Bsp`. -/
theorem c10_axis_hardcoded_z_witness :
    ConvertResult.pvertices c10Res = project c10Bsp.vertices ProjectionAxis.Z :=
  (c10_axis_hardcoded_z c10Bsp c10Res
    (by simp +decide [convert, filter_and_sort_faces, minimums, minEntry, faceMin,
      filter_faces, get_face_vertices, project, projectVertex, boundsOf, padding,
      color_per_tex_name, mkStuff, polygonsOf, fillColor, lookupColor, c10Bsp, c10Res,
      List.mergeSort])).1

end

end Bsp2Svg
